import Mathlib

/-!
Shallow embedding of the esheets progress/identity persistence engine.

The embedding covers:
* the v5 core (`src/v5/esheets.js`, canonical document): storage codec with
  legacy-key migration, `submit` (best-score merge, tracking adapter),
  identity store with class-code normalization/validation;
* the v5.1 explicit-submission core (`src/unnamed/part_000`): `submit`;
* the observer core (`src/unnamed/part_001`): `parseScoreText`,
  `findScoreElement`, `setScoreImpl`, `newAttempt`, `attachScoreObserver`.

JavaScript numbers are modelled as `JsNum` (NaN or an exact rational);
the finite case is an exact rational, which matches the source wherever no
floating-point rounding is claimed.  Timestamps (`new Date().toISOString()`)
are modelled as an abstract `Nat` clock value threaded into each operation.
DOM side effects (placeholder text, warning banners, CSS classes) are out of
scope and dropped from the embedding; only the persisted state is modelled.
-/

/-- A JavaScript number that has passed a `typeof x === 'number'` check:
either `NaN` or a finite value (modelled as an exact rational). -/
inductive JsNum where
  | nan : JsNum
  | fin : ℚ → JsNum
deriving DecidableEq, Repr

/-- A JavaScript value as received by the public API: either not a number
(rejected by the `typeof` guards) or a number. -/
inductive JsVal where
  | notNumber : JsVal
  | number : JsNum → JsVal
deriving DecidableEq, Repr

/-- `Math.max(q, x)` with a finite first argument: NaN-propagating. -/
def jsMaxQ (q : ℚ) (x : JsNum) : JsNum :=
  match x with
  | .nan => .nan
  | .fin a => .fin (max q a)

/-- `x > 0` on a JS number: `false` when `x` is NaN. -/
def jsPos (x : JsNum) : Bool :=
  match x with
  | .nan => false
  | .fin a => 0 < a

/-- `x > b` where `b` is a known-finite value: `false` when `x` is NaN. -/
def jsGtQ (x : JsNum) (b : ℚ) : Bool :=
  match x with
  | .nan => false
  | .fin a => b < a

/-- `Math.abs(x - b) < e` with finite `b`, `e`: `false` when `x` is NaN. -/
def jsAbsLt (x : JsNum) (b e : ℚ) : Bool :=
  match x with
  | .nan => false
  | .fin a => |a - b| < e

/-- `(s / m) * 100`: NaN-propagating.  In every reachable call the finite
denominator is `≥ 1` (it is `Math.max(1, ·)`), so rational division never
hits a zero denominator. -/
def jsPct (s m : JsNum) : JsNum :=
  match s, m with
  | .fin a, .fin b => .fin (a / b * 100)
  | _, _ => .nan

/-- `x || 0` on a JS number: NaN and `0` are falsy and give `0`. -/
def orZero (x : JsNum) : ℚ :=
  match x with
  | .nan => 0
  | .fin a => a

/-- Truthiness of a JS number: `0` and NaN are falsy. -/
def jsTruthy (x : JsNum) : Bool :=
  match x with
  | .nan => false
  | .fin a => a ≠ 0

/-- Association-list lookup for a JS object used as a string-keyed map
(`data[id]`, absent key → `undefined`, modelled as `none`). -/
def lookupTbl {α : Type} : List (String × α) → String → Option α
  | [], _ => none
  | (k, v) :: t, id => if k = id then some v else lookupTbl t id

/-- Key assignment on a JS object used as a map (`data[id] = record`). -/
def setTbl {α : Type} : List (String × α) → String → α → List (String × α)
  | [], id, v => [(id, v)]
  | (k, w) :: t, id, v =>
      if k = id then (k, v) :: t else (k, w) :: setTbl t id v

/-- `\d` from the score regex: an ASCII decimal digit. -/
def isDigitChar (c : Char) : Bool := '0' ≤ c && c ≤ '9'

/-- Maximal digit prefix of a character list and the remainder
(the greedy `\d+`/`\d*` step of the regex engine). -/
def takeDigits : List Char → List Char × List Char
  | [] => ([], [])
  | c :: cs =>
      if isDigitChar c then
        let p := takeDigits cs
        (c :: p.1, p.2)
      else ([], c :: cs)

/-- Maximal whitespace prefix and remainder (the greedy `\s*` step). -/
def takeWs : List Char → List Char × List Char
  | [] => ([], [])
  | c :: cs =>
      if c.isWhitespace then
        let p := takeWs cs
        (c :: p.1, p.2)
      else ([], c :: cs)

/-- `parseInt(digits, 10)` on a captured all-digit group, exact. -/
def digitsVal (l : List Char) : Nat :=
  l.foldl (fun a c => 10 * a + (c.toNat - '0'.toNat)) 0

/-- One anchored attempt of `/(\d+)\s*\/\s*(\d+)/` at the head of the list.
For this pattern greedy matching never needs to backtrack: after a maximal
digit run the next character is not a digit, so shrinking `\d+` cannot make
`\s*\/` succeed. -/
def matchAt (l : List Char) : Option (Nat × Nat) :=
  let p1 := takeDigits l
  if p1.1.isEmpty then none
  else
    let p2 := takeWs p1.2
    match p2.2 with
    | '/' :: r3 =>
        let p3 := takeWs r3
        let p4 := takeDigits p3.2
        if p4.1.isEmpty then none
        else some (digitsVal p1.1, digitsVal p4.1)
    | _ => none

/-- `txt.match(/(\d+)\s*\/\s*(\d+)/)`: leftmost match, trying each start
position in order. -/
def scanFraction : List Char → Option (Nat × Nat)
  | [] => none
  | c :: rest =>
      match matchAt (c :: rest) with
      | some p => some p
      | none => scanFraction rest

/-- `parseScoreText` (`src/unnamed/part_001`, lines 97-110).  `parseInt` of
a captured digit group is modelled exactly, so the `isFinite` guards always
pass; the denominator guards `max <= 0` and `max > 500` are kept. -/
def parseScoreText (txt : String) : Option (Nat × Nat) :=
  if txt = "" then none  -- if (!txt) return null
  else
    match scanFraction txt.toList with
    | none => none
    | some (v, m) =>
        if m ≤ 0 then none
        else if 500 < m then none
        else some (v, m)

/-- Lower-cased text (JS `txt.toLowerCase()`, ASCII as in the source data). -/
def lowerStr (s : String) : List Char := s.toList.map Char.toLower

/-- JS `str.trim()`: strip leading and trailing whitespace. -/
def jsTrim (s : String) : String :=
  String.mk
    (((s.toList.dropWhile Char.isWhitespace).reverse.dropWhile
      Char.isWhitespace).reverse)

/-- `hay.indexOf(pat) !== -1`: substring occurrence test. -/
def hasSub (pat : List Char) : List Char → Bool
  | [] => pat.isPrefixOf ([] : List Char)
  | c :: t => pat.isPrefixOf (c :: t) || hasSub pat t

/-- A page element, reduced to the attributes `findScoreElement` inspects:
its text content, computed visibility, which of the seven quick-win
selectors it matches (by index), and how many interactive descendants
(`input,button,select,textarea`) it has.  A document is the list of its
elements in document order. -/
structure Elem where
  text : String
  visible : Bool
  selMatches : List Nat
  interactiveCount : Nat
deriving DecidableEq, Repr

/-- `document.querySelector(selectors[i])`: first element in document order
matching selector `i`. -/
def querySel (doc : List Elem) (i : Nat) : Option Elem :=
  doc.find? (fun e => e.selMatches.contains i)

/-- The quick-win loop of `findScoreElement`: probe selectors in order and
return the first visible match whose text parses as a score pair; on a
missing, invisible, or unparsable match, fall through to the next selector. -/
def quickWins (doc : List Elem) : List Nat → Option Elem
  | [] => none
  | i :: rest =>
      match querySel doc i with
      | some el =>
          if el.visible then
            if (parseScoreText el.text).isSome then some el
            else quickWins doc rest
          else quickWins doc rest
      | none => quickWins doc rest

/-- The heuristic-walk filter: visible, trimmed text length in `[3, 80]`,
lower-cased text contains `"score"`, and the trimmed text parses. -/
def candOk (e : Elem) : Bool :=
  e.visible &&
    (let t := jsTrim e.text
     3 ≤ t.length && t.length ≤ 80 &&
       hasSub "score".toList (lowerStr t) && (parseScoreText t).isSome)

/-- Interactivity penalty: 10 when the subtree contains any
`input,button,select,textarea`, else 0. -/
def penaltyOf (e : Elem) : Nat :=
  if 0 < e.interactiveCount then 10 else 0

/-- `candidates.sort(penalty, then length)[0]` with a stable sort: the
earliest candidate with the lexicographically least (penalty, length) key. -/
def pickBest : List Elem → Option Elem
  | [] => none
  | c :: rest =>
      match pickBest rest with
      | none => some c
      | some b =>
          if penaltyOf b < penaltyOf c ||
              (penaltyOf b = penaltyOf c &&
                (jsTrim b.text).length < (jsTrim c.text).length)
          then some b else some c

/-- `findScoreElement` (`src/unnamed/part_001`, lines 112-163): quick-win
selectors `0..6`, then the bounded tree walk with the candidate filter and
(penalty, length) ranking. -/
def findScoreElement (doc : List Elem) : Option Elem :=
  match quickWins doc [0, 1, 2, 3, 4, 5, 6] with
  | some el => some el
  | none => pickBest (doc.filter candOk)

/-- Declarative reading of "the text contains an `integer / integer`
substring": some split of the text is a nonempty digit run, optional
whitespace, a slash, optional whitespace, and a nonempty digit run. -/
def FractionSubstring (l : List Char) : Prop :=
  ∃ pre d1 w1 w2 d2 post,
    l = pre ++ d1 ++ w1 ++ ['/'] ++ w2 ++ d2 ++ post ∧
    d1 ≠ [] ∧ d2 ≠ [] ∧
    (∀ c ∈ d1, isDigitChar c = true) ∧ (∀ c ∈ d2, isDigitChar c = true) ∧
    (∀ c ∈ w1, c.isWhitespace = true) ∧ (∀ c ∈ w2, c.isWhitespace = true)

namespace ES1
/-!
The observer core of `src/unnamed/part_001` (storage key `esheets:v1:progress`,
no legacy fallback).  State is the parsed progress table.
-/

/-- A v1 progress record: the field set of `saveRecord`'s default
(`src/unnamed/part_001`, lines 49-56).  Timestamps are `Option Nat`
(`null` = `none`). -/
structure Record where
  bestScore : JsNum
  maxScore : JsNum
  bestPercent : JsNum
  attempts : JsNum
  lastAttemptAt : Option Nat
  completedAt : Option Nat
deriving DecidableEq, Repr

/-- The zero-valued default record created on first write. -/
def defaultRecord : Record :=
  { bestScore := .fin 0, maxScore := .fin 0, bestPercent := .fin 0
    attempts := .fin 0, lastAttemptAt := none, completedAt := none }

/-- A partial update object (`updates`): `none` = key absent. -/
structure Updates where
  bestScore : Option JsNum := none
  maxScore : Option JsNum := none
  bestPercent : Option JsNum := none
  attempts : Option JsNum := none
  lastAttemptAt : Option (Option Nat) := none
  completedAt : Option (Option Nat) := none
deriving DecidableEq, Repr

/-- The `for (key in updates) record[key] = updates[key]` loop. -/
def applyUpdates (r : Record) (u : Updates) : Record :=
  { bestScore := u.bestScore.getD r.bestScore
    maxScore := u.maxScore.getD r.maxScore
    bestPercent := u.bestPercent.getD r.bestPercent
    attempts := u.attempts.getD r.attempts
    lastAttemptAt := u.lastAttemptAt.getD r.lastAttemptAt
    completedAt := u.completedAt.getD r.completedAt }

/-- The progress table parsed from `esheets:v1:progress`. -/
abbrev Table := List (String × Record)

/-- `getRecord(id)`: `null` on an empty id or an absent record. -/
def getRecord (tbl : Table) (id : String) : Option Record :=
  if id = "" then none else lookupTbl tbl id

/-- `saveRecord(id, updates)`: no-op on an empty id; otherwise merge the
updates into the stored record (or the default) and write the table back. -/
def saveRecord (tbl : Table) (id : String) (u : Updates) : Table :=
  if id = "" then tbl
  else
    let r := (lookupTbl tbl id).getD defaultRecord
    setTbl tbl id (applyUpdates r u)

/-- The best-merge acceptance test shared by the observer core:
`pct > currentBestPercent || (|pct - currentBestPercent| < 0.001 && s > currentBestScore)`. -/
def mergeAccept (pct : JsNum) (cbp cbs : ℚ) (s : JsNum) : Bool :=
  jsGtQ pct cbp || (jsAbsLt pct cbp (1 / 1000) && jsGtQ s cbs)

/-- `setScoreImpl` (`src/unnamed/part_001`, lines 166-207).  The DOM text
update is dropped; the guards, clamping, best merge, `completedAt` logic and
attempt initialisation are kept.  `wsid` is `meta.worksheet_id`. -/
def setScoreImpl (wsid : String) (score maxScore : JsVal) (now : Nat)
    (tbl : Table) : Table :=
  match score, maxScore with
  | .number sn, .number mn =>
      if sn = .nan ∨ mn = .nan then tbl  -- isNaN guard
      else
        let s := jsMaxQ 0 sn
        let m := jsMaxQ 1 mn
        let pct := jsPct s m
        if wsid = "" then tbl
        else
          -- getRecord(id) || { bestPercent: 0, bestScore: 0 }: the default
          -- object lacks completedAt / attempts (both read as falsy).
          let r? := getRecord tbl wsid
          let cbp := (r?.map (fun r => orZero r.bestPercent)).getD 0
          let cbs := (r?.map (fun r => orZero r.bestScore)).getD 0
          let hasCompleted := (r?.map (fun r => r.completedAt.isSome)).getD false
          let hasAttempts := (r?.map (fun r => jsTruthy r.attempts)).getD false
          let u : Updates := {}
          let u := if mergeAccept pct cbp cbs s then
              { u with bestPercent := some pct, bestScore := some s,
                       maxScore := some m }
            else u
          let u := if jsAbsLt pct 100 (1 / 1000) && !hasCompleted then
              { u with completedAt := some (some now) }
            else u
          let u := if !hasAttempts then
              { u with attempts := some (.fin 1), lastAttemptAt := some (some now) }
            else u
          saveRecord tbl wsid u
  | _, _ => tbl  -- typeof guard

/-- `newAttempt` (`src/unnamed/part_001`, lines 240-260): bump `attempts`,
stamp `lastAttemptAt`, clear `completedAt`.  The warning banner is DOM-only
and dropped. -/
def newAttempt (wsid : String) (now : Nat) (tbl : Table) : Table :=
  if wsid = "" then tbl
  else
    let r? := getRecord tbl wsid  -- getRecord(id) || {}
    let newCount : ℚ := (r?.map (fun r => orZero r.attempts)).getD 0 + 1
    saveRecord tbl wsid
      { attempts := some (.fin newCount), lastAttemptAt := some (some now),
        completedAt := some none }

/-- The `parse()` closure of `attachScoreObserver`: parse the element's
current text and, on success, feed the pair through `setScoreImpl`. -/
def observerParse (wsid : String) (now : Nat) (el : Elem) (tbl : Table) :
    Table :=
  match parseScoreText el.text with
  | some p =>
      setScoreImpl wsid (.number (.fin p.1)) (.number (.fin p.2)) now tbl
  | none => tbl

/-- Result of attaching the observer: the table after the immediate
`parse()` call, and whether a MutationObserver was registered. -/
structure AttachResult where
  table : Table
  observerRegistered : Bool
deriving DecidableEq, Repr

/-- `attachScoreObserver` (`src/unnamed/part_001`, lines 262-276): guard on
a missing element, run `parse()` once immediately, then register the
observer (whose callback is `observerParse` again). -/
def attachScoreObserver (wsid : String) (now : Nat) (el? : Option Elem)
    (tbl : Table) : AttachResult :=
  match el? with
  | none => ⟨tbl, false⟩
  | some el => ⟨observerParse wsid now el tbl, true⟩

end ES1

namespace ES5
/-!
The canonical v5 core of `src/v5/esheets.js` (second document, lines
192-948): keys `esheets:v5:progress`, `esheets:v1:progress` (legacy, read
only during migration) and `esheets:v5:identity`.
-/

/-- A v5 progress record: the field set of `saveRecord`'s default
(`src/v5/esheets.js`, lines 295-302). -/
structure Record where
  bestScore : JsNum
  maxScore : JsNum
  bestPercent : JsNum
  lastScore : JsNum
  lastPercent : JsNum
  submittedAt : Option Nat
deriving DecidableEq, Repr

/-- The zero-valued default record created on first write. -/
def defaultRecord : Record :=
  { bestScore := .fin 0, maxScore := .fin 0, bestPercent := .fin 0
    lastScore := .fin 0, lastPercent := .fin 0, submittedAt := none }

/-- A partial update object (`updates`): `none` = key absent. -/
structure Updates where
  bestScore : Option JsNum := none
  maxScore : Option JsNum := none
  bestPercent : Option JsNum := none
  lastScore : Option JsNum := none
  lastPercent : Option JsNum := none
  submittedAt : Option (Option Nat) := none
deriving DecidableEq, Repr

/-- The `for (key in updates) record[key] = updates[key]` loop. -/
def applyUpdates (r : Record) (u : Updates) : Record :=
  { bestScore := u.bestScore.getD r.bestScore
    maxScore := u.maxScore.getD r.maxScore
    bestPercent := u.bestPercent.getD r.bestPercent
    lastScore := u.lastScore.getD r.lastScore
    lastPercent := u.lastPercent.getD r.lastPercent
    submittedAt := u.submittedAt.getD r.submittedAt }

/-- The v5 progress table. -/
abbrev Table := List (String × Record)

/-- The persisted identity blob at `esheets:v5:identity`.  A missing string
field and an empty one are indistinguishable to the code (both falsy), so
absent fields are modelled as `""`; `student_name` is the legacy combined
name, `""` when absent. -/
structure IdentityData where
  first_name : String := ""
  last_name : String := ""
  class_code : String := ""
  student_name : String := ""
deriving DecidableEq, Repr

/-- The in-memory identity record returned by `getIdentityStorage`. -/
structure Identity where
  first_name : String
  last_name : String
  class_code : String
deriving DecidableEq, Repr

/-- The browser-local persisted state: the three storage entries.  `none`
models an absent key.  The stored strings are modelled as their parsed
values (parse failure recovery is not at issue in the claims below). -/
structure LS where
  v5 : Option Table
  legacy : Option Table
  identity : Option IdentityData
deriving DecidableEq, Repr

/-- `getStorage` (`src/v5/esheets.js`, lines 221-240): read the v5 key;
when it holds no value, fall back to the legacy key; default to `{}`. -/
def getStorage (ls : LS) : Table :=
  match ls.v5 with
  | some t => t
  | none =>
      match ls.legacy with
      | some t => t
      | none => []

/-- `setStorage` (lines 242-248): write the v5 key only. -/
def setStorage (ls : LS) (data : Table) : LS :=
  { ls with v5 := some data }

/-- `\s+` split of a nonempty-trimmed string for the legacy name migration.
JS `"".split(/\s+/)` yields `[""]`. -/
def jsSplitWs (s : String) : List String :=
  if s = "" then [""] else (s.splitOn " ").filter (fun w => w ≠ "")

/-- `parts.slice(1).join(' ')`. -/
def joinSpace : List String → String
  | [] => ""
  | [w] => w
  | w :: rest => w ++ " " ++ joinSpace rest

/-- `getIdentityStorage` (lines 250-276): structure defaults plus the
in-memory legacy `student_name` split (first token → first name, rest →
last name, each only when the split field is empty). -/
def getIdentityStorage (ls : LS) : Identity :=
  match ls.identity with
  | none => ⟨"", "", ""⟩
  | some d =>
      let idy : Identity := ⟨d.first_name, d.last_name, d.class_code⟩
      if d.student_name ≠ "" then
        match jsSplitWs (jsTrim d.student_name) with
        | [] => idy
        | p :: rest =>
            { idy with
              first_name := if idy.first_name = "" then p else idy.first_name
              last_name :=
                if idy.last_name = "" then joinSpace rest else idy.last_name }
      else idy

/-- `setIdentityStorage` (lines 278-284): persist the three-field record
(the legacy `student_name` key is not in the written object). -/
def setIdentityStorage (ls : LS) (idy : Identity) : LS :=
  let d : IdentityData :=
    { first_name := idy.first_name, last_name := idy.last_name
      class_code := idy.class_code, student_name := "" }
  { ls with identity := some d }

/-- The class-code character class `[A-HJ-NP-Z2-9]` of `CLASS_CODE_REGEX`
(line 353). -/
def allowedChar (c : Char) : Bool :=
  ('A' ≤ c && c ≤ 'H') || ('J' ≤ c && c ≤ 'N') || ('P' ≤ c && c ≤ 'Z') ||
    ('2' ≤ c && c ≤ '9')

/-- `normalizeClassCode` (lines 355-359): trim, upper-case, strip all
whitespace.  Upper-casing is ASCII (`Char.toUpper`), matching the code's
target alphabet. -/
def normalizeClassCode (s : String) : String :=
  String.mk (((jsTrim s).toList.map Char.toUpper).filter
    (fun c => !c.isWhitespace))

/-- `isValidClassCode` (lines 361-363): `/^[A-HJ-NP-Z2-9]{4}-[A-HJ-NP-Z2-9]{4}$/`. -/
def isValidClassCode (s : String) : Bool :=
  match s.toList with
  | [c1, c2, c3, c4, hy, c5, c6, c7, c8] =>
      allowedChar c1 && allowedChar c2 && allowedChar c3 && allowedChar c4 &&
        hy = '-' &&
        allowedChar c5 && allowedChar c6 && allowedChar c7 && allowedChar c8
  | _ => false

/-- A partial identity update object passed to `setIdentity`. -/
structure IdentityUpdates where
  first_name : Option String := none
  last_name : Option String := none
  class_code : Option String := none
deriving DecidableEq, Repr

/-- One step of `setIdentity`'s update loop for a plain string field. -/
def setIdentityField (cur : String) (v? : Option String) : String × Bool :=
  match v? with
  | none => (cur, false)
  | some v => if cur ≠ v then (v, true) else (cur, false)

/-- `setIdentity` (lines 399-428): normalize/validate the class code
(invalid → `""`), track whether anything changed, and persist only then.
Returns the updated state and the returned record. -/
def setIdentity (u : IdentityUpdates) (ls : LS) : LS × Identity :=
  let current := getIdentityStorage ls
  let f := setIdentityField current.first_name u.first_name
  let l := setIdentityField current.last_name u.last_name
  let c :=
    match u.class_code with
    | none => (current.class_code, false)
    | some v =>
        let norm := normalizeClassCode v
        let val := if isValidClassCode norm then norm else ""
        if current.class_code ≠ val then (val, true) else (current.class_code, false)
  let current := { first_name := f.1, last_name := l.1, class_code := c.1 : Identity }
  let changed := f.2 || l.2 || c.2
  (if changed then setIdentityStorage ls current else ls, current)

/-- `getRecord` (lines 286-290). -/
def getRecord (ls : LS) (id : String) : Option Record :=
  if id = "" then none else lookupTbl (getStorage ls) id

/-- `saveRecord` (lines 292-313). -/
def saveRecord (ls : LS) (id : String) (u : Updates) : LS :=
  if id = "" then ls
  else
    let data := getStorage ls
    let r := (lookupTbl data id).getD defaultRecord
    setStorage ls (setTbl data id (applyUpdates r u))

/-- The payload handed to the tracking adapter (lines 472-481).
`worksheetMeta` carries no behaviour and is omitted. -/
structure Payload where
  worksheet_id : String
  score : JsNum
  maxScore : JsNum
  percent : JsNum
  submittedAt : Nat
  identity : Identity
deriving Repr

/-- A tracking adapter: a host callback that may throw (`Except.error`). -/
def Adapter := Payload → Except String Unit

/-- `submit` (lines 442-488).  Note the guard on line 444 checks only
`typeof`, not `isNaN`.  Returns the new state and the diagnostic captured
by the adapter `try/catch` (the `console.warn` argument), if any. -/
def submit (tracking : Option Adapter) (mounted : Bool) (wsid : String)
    (score maxScore : JsVal) (now : Nat) (ls : LS) : LS × Option String :=
  if ¬mounted ∨ wsid = "" then (ls, none)
  else
    match score, maxScore with
    | .number sn, .number mn =>
        let s := jsMaxQ 0 sn
        let m := jsMaxQ 1 mn
        let pct := if jsPos m then jsPct s m else .fin 0
        let r? := getRecord ls wsid  -- getRecord(id) || { bestPercent: 0, bestScore: 0 }
        let cbp := (r?.map (fun r => orZero r.bestPercent)).getD 0
        let cbs := (r?.map (fun r => orZero r.bestScore)).getD 0
        let u : Updates :=
          { lastScore := some s, lastPercent := some pct,
            submittedAt := some (some now), maxScore := some m }
        let u := if ES1.mergeAccept pct cbp cbs s then
            { u with bestPercent := some pct, bestScore := some s }
          else u
        let ls := saveRecord ls wsid u
        match tracking with
        | none => (ls, none)
        | some f =>
            let payload : Payload :=
              { worksheet_id := wsid, score := s, maxScore := m, percent := pct
                submittedAt := now, identity := getIdentityStorage ls }
            match f payload with
            | .ok _ => (ls, none)
            | .error e => (ls, some e)  -- catch (e) { console.warn(...) }
    | _, _ => (ls, none)  -- typeof guard

/-- An operation of the public v5 API that can reach storage. -/
inductive ApiOp where
  | submitOp (tracking : Option Adapter) (mounted : Bool) (wsid : String)
      (score maxScore : JsVal) (now : Nat)
  | setIdentityOp (u : IdentityUpdates)

/-- Apply one API operation to the persisted state. -/
def applyOp (ls : LS) : ApiOp → LS
  | .submitOp tracking mounted wsid score maxScore now =>
      (submit tracking mounted wsid score maxScore now ls).1
  | .setIdentityOp u => (setIdentity u ls).1

/-- Apply a sequence of API operations. -/
def applyOps (ls : LS) (ops : List ApiOp) : LS := ops.foldl applyOp ls

end ES5

namespace ES51
/-!
The v5.1 explicit-submission core of `src/unnamed/part_000` (storage key
`esheets:v1:progress`, no legacy fallback, no adapter).  Records have the
same field set as the canonical v5 core, so `ES5.Record` is reused; state is
the parsed progress table.
-/

/-- `saveRecord` (`src/unnamed/part_000`, lines 46-69). -/
def saveRecord (tbl : ES5.Table) (id : String) (u : ES5.Updates) : ES5.Table :=
  if id = "" then tbl
  else
    let r := (lookupTbl tbl id).getD ES5.defaultRecord
    setTbl tbl id (ES5.applyUpdates r u)

/-- `submit` (`src/unnamed/part_000`, lines 114-144).  Unlike the canonical
v5 `submit`, the guard on line 116 checks `isNaN` as well as `typeof`. -/
def submit (wsid : String) (score maxScore : JsVal) (now : Nat)
    (tbl : ES5.Table) : ES5.Table :=
  if wsid = "" then tbl
  else
    match score, maxScore with
    | .number sn, .number mn =>
        if sn = .nan ∨ mn = .nan then tbl  -- isNaN guard
        else
          let s := jsMaxQ 0 sn
          let m := jsMaxQ 1 mn
          let pct := jsPct s m
          let r? := if wsid = "" then none else lookupTbl tbl wsid
          let cbp := (r?.map (fun r => orZero r.bestPercent)).getD 0
          let cbs := (r?.map (fun r => orZero r.bestScore)).getD 0
          let u : ES5.Updates :=
            { lastScore := some s, lastPercent := some pct,
              submittedAt := some (some now), maxScore := some m }
          let u := if ES1.mergeAccept pct cbp cbs s then
              { u with bestPercent := some pct, bestScore := some s }
            else u
          saveRecord tbl wsid u
    | _, _ => tbl  -- typeof guard

end ES51

namespace ES5

/-- The observed best percentage for a worksheet id: `bestPercent || 0` of
the stored record, `0` when no record is stored. -/
def bestPercentOf (ls : LS) (wsid : String) : ℚ :=
  match lookupTbl (getStorage ls) wsid with
  | none => 0
  | some r => orZero r.bestPercent

end ES5

/-- A sample stored v5 record used to instantiate the general theorems:
an 8/10 (80%) best. -/
def exRecord5 : ES5.Record :=
  { bestScore := .fin 8, maxScore := .fin 10, bestPercent := .fin 80
    lastScore := .fin 8, lastPercent := .fin 80, submittedAt := some 0 }

/-- A sample persisted state holding `exRecord5` under id `"w"`. -/
def exLS : ES5.LS := ⟨some [("w", exRecord5)], none, none⟩

/-- A sample stored v1 record: a 4/5 (80%) best with one attempt. -/
def exRecord1 : ES1.Record :=
  { bestScore := .fin 4, maxScore := .fin 5, bestPercent := .fin 80
    attempts := .fin 1, lastAttemptAt := some 0, completedAt := none }

/-- A sample v1 progress table holding `exRecord1` under id `"w"`. -/
def exTbl1 : ES1.Table := [("w", exRecord1)]

/-- A sample score element: visible static text, no selector match. -/
def exElem : Elem := ⟨"Score: 7 / 10", true, [], 0⟩

theorem lookupTbl_setTbl_self {α : Type} (t : List (String × α)) (id : String) (v : α) :
    lookupTbl (setTbl t id v) id = some v := by
  induction t with
  | nil => simp [setTbl, lookupTbl]
  | cons h t ih =>
      obtain ⟨k, w⟩ := h
      by_cases hk : k = id
      · simp [setTbl, lookupTbl, hk]
      · simp [setTbl, lookupTbl, hk, ih]

theorem getStorage_setStorage (ls : ES5.LS) (d : ES5.Table) :
    ES5.getStorage (ES5.setStorage ls d) = d := rfl

theorem mergeAccept_fin (x p cbs s : ℚ) :
    ES1.mergeAccept (.fin x) p cbs (.fin s) = true ↔
      (p < x ∨ (|x - p| < 1 / 1000 ∧ cbs < s)) := by
  simp [ES1.mergeAccept, jsGtQ, jsAbsLt]

theorem mergeAccept_nan_fst (p cbs : ℚ) (s : JsNum) :
    ES1.mergeAccept .nan p cbs s = false := by
  simp [ES1.mergeAccept, jsGtQ, jsAbsLt]

theorem lookupTbl_saveRecord (ls : ES5.LS) (wsid : String) (u : ES5.Updates)
    (hw : wsid ≠ "") :
    lookupTbl (ES5.getStorage (ES5.saveRecord ls wsid u)) wsid =
      some (ES5.applyUpdates
        ((lookupTbl (ES5.getStorage ls) wsid).getD ES5.defaultRecord) u) := by
  unfold ES5.saveRecord
  simp only [hw, ite_false, if_neg, not_false_eq_true, getStorage_setStorage,
    lookupTbl_setTbl_self]

theorem lookupTbl_saveRecord1 (tbl : ES1.Table) (wsid : String) (u : ES1.Updates)
    (hw : wsid ≠ "") :
    lookupTbl (ES1.saveRecord tbl wsid u) wsid =
      some (ES1.applyUpdates ((lookupTbl tbl wsid).getD ES1.defaultRecord) u) := by
  unfold ES1.saveRecord
  simp only [hw, ite_false, if_neg, not_false_eq_true, lookupTbl_setTbl_self]

theorem bestPercentOf_saveRecord (ls : ES5.LS) (wsid : String) (u : ES5.Updates)
    (hw : wsid ≠ "") :
    ES5.bestPercentOf (ES5.saveRecord ls wsid u) wsid =
      orZero (u.bestPercent.getD
        (((lookupTbl (ES5.getStorage ls) wsid).getD ES5.defaultRecord).bestPercent)) := by
  unfold ES5.bestPercentOf ES5.saveRecord
  simp only [hw, ite_false, if_neg, not_false_eq_true, getStorage_setStorage,
    lookupTbl_setTbl_self, ES5.applyUpdates]

/-- The persisted state produced by `submit` does not depend on the
registered tracking adapter: the save completes before the adapter runs and
the adapter call is wrapped in `try/catch`. -/
theorem submit_state_adapter_indep (tr : Option ES5.Adapter) (mounted : Bool)
    (wsid : String) (score maxScore : JsVal) (now : Nat) (ls : ES5.LS) :
    (ES5.submit tr mounted wsid score maxScore now ls).1 =
      (ES5.submit none mounted wsid score maxScore now ls).1 := by
  unfold ES5.submit
  split
  · rfl
  · cases score with
    | notNumber => rfl
    | number sn =>
        cases maxScore with
        | notNumber => rfl
        | number mn =>
            cases tr with
            | none => rfl
            | some f =>
                simp only
                split <;> rfl

/-- Claim C1: for every stored best record and every (finite) observation
`(score, max)`, `submit` clamps `score` to `max(0, score)` and `max` to
`max(1, max)`, computes `percent = score / max * 100`, and updates
`bestScore`/`bestPercent` exactly when `percent` exceeds the stored
`bestPercent`, or ties it within `0.001` with a strictly greater clamped raw
score; otherwise both best fields are left unchanged. -/
theorem C1_submit_best_merge_rule (ls : ES5.LS) (wsid : String) (r : ES5.Record)
    (a b p c : ℚ) (now : Nat)
    (hw : wsid ≠ "")
    (hr : lookupTbl (ES5.getStorage ls) wsid = some r)
    (hp : r.bestPercent = .fin p) (hc : r.bestScore = .fin c) :
    ∃ r', lookupTbl (ES5.getStorage
        (ES5.submit none true wsid (.number (.fin a)) (.number (.fin b)) now ls).1) wsid
        = some r' ∧
      ((max 0 a / max 1 b * 100 > p ∨
        (|max 0 a / max 1 b * 100 - p| < 1 / 1000 ∧ max 0 a > c)) →
        r'.bestPercent = .fin (max 0 a / max 1 b * 100) ∧
        r'.bestScore = .fin (max 0 a)) ∧
      (¬(max 0 a / max 1 b * 100 > p ∨
        (|max 0 a / max 1 b * 100 - p| < 1 / 1000 ∧ max 0 a > c)) →
        r'.bestPercent = r.bestPercent ∧ r'.bestScore = r.bestScore) := by
  have hm : (0 : ℚ) < max 1 b := lt_of_lt_of_le one_pos (le_max_left 1 b)
  unfold ES5.submit
  simp only [hw, not_true_eq_false, false_or, if_neg, ite_false, not_false_eq_true]
  simp only [jsMaxQ, jsPos, jsPct, ES5.getRecord, hw, ite_false, hr, hp, hc,
    orZero, Option.map_some, Option.getD_some, hm, if_pos,
    decide_eq_true_eq, if_neg]
  simp only [Option.map_some', Option.getD_some, hp, hc]
  have hgs : ∀ (l : ES5.LS) (d : ES5.Table), ES5.getStorage (ES5.setStorage l d) = d :=
    fun _ _ => rfl
  by_cases hacc : ((0 ⊔ a) / (1 ⊔ b) * 100 > p ∨
      |(0 ⊔ a) / (1 ⊔ b) * 100 - p| < 1 / 1000 ∧ 0 ⊔ a > c)
  · have hb : ES1.mergeAccept (JsNum.fin ((0 ⊔ a) / (1 ⊔ b) * 100)) p c
        (JsNum.fin (0 ⊔ a)) = true := by
      rw [mergeAccept_fin]; tauto
    rw [if_pos hb]
    refine ⟨⟨.fin (0 ⊔ a), .fin (1 ⊔ b), .fin ((0 ⊔ a) / (1 ⊔ b) * 100), .fin (0 ⊔ a), .fin ((0 ⊔ a) / (1 ⊔ b) * 100), some now⟩, ?_, fun _ => ⟨rfl, rfl⟩, fun hn => absurd hacc hn⟩
    simp only [ES5.saveRecord, hw, ite_false, if_neg, hr, Option.getD_some,
      hgs, lookupTbl_setTbl_self, not_false_eq_true, ES5.applyUpdates,
      Option.getD_none]
  · have hb : ES1.mergeAccept (JsNum.fin ((0 ⊔ a) / (1 ⊔ b) * 100)) p c
        (JsNum.fin (0 ⊔ a)) = false := by
      rw [← Bool.not_eq_true, mergeAccept_fin]; tauto
    rw [hb]
    simp only [Bool.false_eq_true, ite_false, if_neg, not_false_eq_true]
    refine ⟨⟨r.bestScore, .fin (1 ⊔ b), r.bestPercent, .fin (0 ⊔ a), .fin ((0 ⊔ a) / (1 ⊔ b) * 100), some now⟩, ?_, fun hy => absurd hy hacc, fun _ => ⟨hp, hc⟩⟩
    simp only [ES5.saveRecord, hw, ite_false, if_neg, hr, Option.getD_some,
      hgs, lookupTbl_setTbl_self, not_false_eq_true, ES5.applyUpdates,
      Option.getD_none]

/-- Witness for C1: submitting 9/10 over a stored 8/10 best updates the best
fields to 9/10 = 90%. -/
theorem C1_witness :
    ∃ r', lookupTbl (ES5.getStorage
        (ES5.submit none true "w" (.number (.fin 9)) (.number (.fin 10)) 1 exLS).1) "w"
        = some r' ∧ r'.bestPercent = .fin 90 ∧ r'.bestScore = .fin 9 := by
  obtain ⟨r', h1, h2, _⟩ := C1_submit_best_merge_rule exLS "w" exRecord5 9 10 80 8 1
    (by decide) (by rfl) rfl rfl
  have hcond : ((max 0 (9 : ℚ) / max 1 10 * 100 > 80 ∨
      (|max 0 (9 : ℚ) / max 1 10 * 100 - 80| < 1 / 1000 ∧ max 0 (9 : ℚ) > 8))) := by
    norm_num
  obtain ⟨hbp, hbs⟩ := h2 hcond
  refine ⟨r', h1, ?_, ?_⟩
  · rw [hbp]; norm_num
  · rw [hbs]; norm_num

/-- Counterexample to C2 as stated: after a stored 4/5 = 80% best, submitting
159999/200000 = 79.9995% ties within the 0.001 epsilon with a strictly
greater raw score, so the merge accepts it and the stored `bestPercent`
strictly decreases (from 80 to 79.9995). -/
theorem C2_counterexample :
    ES5.bestPercentOf (ES5.submit none true "w" (.number (.fin 159999))
        (.number (.fin 200000)) 1
        (ES5.submit none true "w" (.number (.fin 4)) (.number (.fin 5)) 0
          ⟨some [], none, none⟩).1).1 "w" <
      ES5.bestPercentOf (ES5.submit none true "w" (.number (.fin 4))
        (.number (.fin 5)) 0 ⟨some [], none, none⟩).1 "w" := by
  have hw : ¬("w" : String) = "" := by decide
  norm_num [hw, abs_lt, ES5.submit, ES5.saveRecord, ES5.getRecord,
    ES5.getStorage, ES5.setStorage, ES5.bestPercentOf, ES5.applyUpdates,
    ES5.defaultRecord, lookupTbl, setTbl, jsMaxQ, jsPos, jsPct, orZero,
    ES1.mergeAccept, jsGtQ, jsAbsLt]

/-- Amended C2: across any `submit` call (any adapter, any mount state, any
arguments), the stored `bestPercent` never drops by `0.001` or more; it can
decrease only within the tie epsilon, as exhibited by `C2_counterexample`. -/
theorem C2_amended_best_percent_near_monotone (tr : Option ES5.Adapter)
    (mounted : Bool) (wsid : String) (score maxScore : JsVal) (now : Nat)
    (ls : ES5.LS) :
    ES5.bestPercentOf (ES5.submit tr mounted wsid score maxScore now ls).1 wsid >
      ES5.bestPercentOf ls wsid - 1 / 1000 := by
  rw [submit_state_adapter_indep]
  unfold ES5.submit
  by_cases hg : ¬mounted ∨ wsid = ""
  · simp only [hg, ite_true, if_pos]
    linarith
  · simp only [hg, ite_false, if_neg, not_false_eq_true]
    cases score with
    | notNumber => simp only; linarith
    | number sn =>
        cases maxScore with
        | notNumber => simp only; linarith
        | number mn =>
            push_neg at hg
            obtain ⟨hm, hw⟩ := hg
            simp only
            set s' := jsMaxQ 0 sn with hs
            set m := jsMaxQ 1 mn with hmm
            set pct := if jsPos m = true then jsPct s' m else JsNum.fin 0 with hpct
            have hcbp : ((ES5.getRecord ls wsid).map (fun r => orZero r.bestPercent)).getD 0 =
                ES5.bestPercentOf ls wsid := by
              unfold ES5.bestPercentOf ES5.getRecord
              simp only [hw, ite_false, if_neg, not_false_eq_true]
              cases lookupTbl (ES5.getStorage ls) wsid <;> simp
            rw [hcbp]
            by_cases hacc : ES1.mergeAccept pct (ES5.bestPercentOf ls wsid)
                (((ES5.getRecord ls wsid).map (fun r => orZero r.bestScore)).getD 0) s' = true
            · rw [if_pos hacc]
              obtain ⟨q, hq, hgt⟩ : ∃ q, pct = JsNum.fin q ∧
                  q > ES5.bestPercentOf ls wsid - 1 / 1000 := by
                cases hcp : pct with
                | nan => rw [hcp, mergeAccept_nan_fst] at hacc; exact absurd hacc (by simp)
                | fin q =>
                    refine ⟨q, rfl, ?_⟩
                    rw [hcp] at hacc
                    rcases hacc' : s' with _ | sq
                    · rw [hacc'] at hacc
                      simp [ES1.mergeAccept, jsGtQ, jsAbsLt] at hacc
                      linarith
                    · rw [hacc'] at hacc
                      rw [mergeAccept_fin] at hacc
                      rcases hacc with h | ⟨h, _⟩
                      · linarith
                      · have := (abs_lt.mp h).1
                        linarith
              rw [bestPercentOf_saveRecord _ _ _ hw]
              simp only [Option.getD_some, hq, orZero]
              exact hgt
            · rw [if_neg hacc]
              rw [bestPercentOf_saveRecord _ _ _ hw]
              simp only [Option.getD_none]
              unfold ES5.bestPercentOf
              cases hl : lookupTbl (ES5.getStorage ls) wsid with
              | none => simp [ES5.defaultRecord, orZero]
              | some r => simp only [Option.getD_some]; linarith

/-- Claim C3 (code bug in canonical v5): the v5 `submit` guard checks only
`typeof`, not `isNaN`, so `submit(NaN, 10)` over a stored default record
writes `lastScore = lastPercent = NaN`, a new `submittedAt` and `maxScore`;
the v5.1 `submit` (which has the `isNaN` guard) leaves the same table
completely unchanged, as the claim demands. -/
theorem C3_nan_submit_mutates :
    lookupTbl (ES5.getStorage (ES5.submit none true "w" (.number .nan)
        (.number (.fin 10)) 7 ⟨some [("w", ES5.defaultRecord)], none, none⟩).1) "w" =
      some { bestScore := .fin 0, maxScore := .fin 10, bestPercent := .fin 0,
             lastScore := .nan, lastPercent := .nan, submittedAt := some 7 } ∧
    ES51.submit "w" (.number .nan) (.number (.fin 10)) 7 [("w", ES5.defaultRecord)] =
      [("w", ES5.defaultRecord)] := by
  have hw : ¬("w" : String) = "" := by decide
  constructor
  · norm_num [hw, abs_lt, ES5.submit, ES5.saveRecord, ES5.getRecord,
      ES5.getStorage, ES5.setStorage, ES5.applyUpdates, ES5.defaultRecord,
      lookupTbl, setTbl, jsMaxQ, jsPos, jsPct, orZero, ES1.mergeAccept,
      jsGtQ, jsAbsLt]
  · norm_num [hw, ES51.submit, ES51.saveRecord, ES5.applyUpdates,
      ES5.defaultRecord, lookupTbl, setTbl, jsMaxQ, jsPos, jsPct, orZero,
      ES1.mergeAccept, jsGtQ, jsAbsLt]

/-- Identity written through `setIdentityStorage` reads back unchanged
(the written blob carries no legacy `student_name`). -/
theorem getIdentity_setIdentityStorage (ls : ES5.LS) (idy : ES5.Identity) :
    ES5.getIdentityStorage (ES5.setIdentityStorage ls idy) = idy := by
  simp [ES5.setIdentityStorage, ES5.getIdentityStorage]

theorem uint32_le_iff_toNat_le (a b : UInt32) : a ≤ b ↔ a.toNat ≤ b.toNat :=
  Iff.rfl

theorem uint32_eq_iff_toNat_eq (a b : UInt32) : a = b ↔ a.toNat = b.toNat := by
  constructor
  · intro h; rw [h]
  · intro h; exact UInt32.toNat.inj h

/-- The regex class `[A-HJ-NP-Z2-9]` is exactly the uppercase ASCII letters
without `I` and `O` plus the digits `2`-`9`. -/
theorem allowedChar_alphabet (c : Char) : ES5.allowedChar c =
    ((c.isUpper && c != 'I' && c != 'O') || ('2' ≤ c && c ≤ '9')) := by
  rw [Bool.eq_iff_iff]
  simp only [ES5.allowedChar, Char.isUpper, Bool.or_eq_true, Bool.and_eq_true,
    decide_eq_true_eq, bne_iff_ne, ne_eq, Char.ext_iff, Char.le_def,
    uint32_le_iff_toNat_le]
  have h1 : ('A' : Char).val.toNat = 65 := rfl
  have h2 : ('H' : Char).val.toNat = 72 := rfl
  have h3 : ('J' : Char).val.toNat = 74 := rfl
  have h4 : ('N' : Char).val.toNat = 78 := rfl
  have h5 : ('P' : Char).val.toNat = 80 := rfl
  have h6 : ('Z' : Char).val.toNat = 90 := rfl
  have h7 : ('2' : Char).val.toNat = 50 := rfl
  have h8 : ('9' : Char).val.toNat = 57 := rfl
  have h9 : ('I' : Char).val.toNat = 73 := rfl
  have h10 : ('O' : Char).val.toNat = 79 := rfl
  have h11 : UInt32.toNat 65 = 65 := rfl
  have h12 : UInt32.toNat 90 = 90 := rfl
  rw [uint32_eq_iff_toNat_eq, uint32_eq_iff_toNat_eq]
  omega

/-- Claim C5: `setIdentity` with a `class_code` value stores (and returns)
the trimmed, upper-cased, whitespace-stripped normalization exactly when it
matches the 4-hyphen-4 grammar, and the empty string otherwise; the allowed
alphabet is the uppercase letters without `I`/`O` plus the digits 2-9. -/
theorem C5_class_code_normalization :
    (∀ (ls : ES5.LS) (v : String),
      ((ES5.setIdentity { class_code := some v } ls).2).class_code =
        (if ES5.isValidClassCode (ES5.normalizeClassCode v) then
          ES5.normalizeClassCode v else "") ∧
      (ES5.getIdentityStorage
          (ES5.setIdentity { class_code := some v } ls).1).class_code =
        (if ES5.isValidClassCode (ES5.normalizeClassCode v) then
          ES5.normalizeClassCode v else "")) ∧
    (∀ c : Char, ES5.allowedChar c =
      ((c.isUpper && c != 'I' && c != 'O') || ('2' ≤ c && c ≤ '9'))) := by
  constructor
  · intro ls v
    unfold ES5.setIdentity
    simp only [ES5.setIdentityField]
    set val := if ES5.isValidClassCode (ES5.normalizeClassCode v) then
      ES5.normalizeClassCode v else "" with hval
    generalize hcur : ES5.getIdentityStorage ls = cur
    by_cases h : cur.class_code = val
    · simp only [h, ite_self, if_neg (by simp [h] : ¬cur.class_code ≠ val)]
      simp [hcur, h]
    · simp only [if_pos h]
      simp [getIdentity_setIdentityStorage]
  · exact allowedChar_alphabet

/-- `submit` never touches the legacy storage key. -/
theorem submit_legacy (tr : Option ES5.Adapter) (mounted : Bool) (wsid : String)
    (score maxScore : JsVal) (now : Nat) (ls : ES5.LS) :
    ((ES5.submit tr mounted wsid score maxScore now ls).1).legacy = ls.legacy := by
  unfold ES5.submit
  split
  · rfl
  · split
    · simp only [ES5.saveRecord, ES5.setStorage]
      split
      · split <;> rfl
      · split <;> split <;> rfl
    · rfl

/-- `setIdentity` writes only the identity key. -/
theorem setIdentity_legacy (u : ES5.IdentityUpdates) (ls : ES5.LS) :
    ((ES5.setIdentity u ls).1).legacy = ls.legacy := by
  unfold ES5.setIdentity ES5.setIdentityStorage
  dsimp only
  repeat' split
  all_goals rfl

/-- No sequence of public API operations changes the legacy key's value. -/
theorem applyOps_legacy (ops : List ES5.ApiOp) (ls : ES5.LS) :
    (ES5.applyOps ls ops).legacy = ls.legacy := by
  induction ops generalizing ls with
  | nil => rfl
  | cons op rest ih =>
      cases op with
      | submitOp tr mounted wsid score maxScore now =>
          rw [ES5.applyOps, List.foldl_cons]
          rw [show ES5.applyOp ls (ES5.ApiOp.submitOp tr mounted wsid score maxScore now) =
            (ES5.submit tr mounted wsid score maxScore now ls).1 from rfl] at *
          rw [← ES5.applyOps]
          rw [ih, submit_legacy]
      | setIdentityOp u =>
          rw [ES5.applyOps, List.foldl_cons]
          rw [show ES5.applyOp ls (ES5.ApiOp.setIdentityOp u) =
            (ES5.setIdentity u ls).1 from rfl] at *
          rw [← ES5.applyOps]
          rw [ih, setIdentity_legacy]

/-- Claim C4: when the v5 key holds no value, `getStorage` adopts the legacy
key's contents verbatim; `setStorage` writes only the v5 key and preserves
the legacy entry; hence no sequence of API operations ever modifies the
legacy key's stored value. -/
theorem C4_migration_read_only :
    (∀ (t : ES5.Table) (i : Option ES5.IdentityData),
      ES5.getStorage ⟨none, some t, i⟩ = t) ∧
    (∀ (ls : ES5.LS) (d : ES5.Table),
      (ES5.setStorage ls d).v5 = some d ∧ (ES5.setStorage ls d).legacy = ls.legacy) ∧
    (∀ (ls : ES5.LS) (ops : List ES5.ApiOp),
      (ES5.applyOps ls ops).legacy = ls.legacy) := by
  refine ⟨fun t i => rfl, fun ls d => ⟨rfl, rfl⟩, fun ls ops => applyOps_legacy ops ls⟩

/-- Counterexample to C6 as stated ("and only then"): after a 9/10 = 90%
best, submitting 4/5 = 80% records no new best (best fields keep 9 and 90)
yet `maxScore` is still overwritten from 10 to 5 — `submit` updates
`maxScore` on every valid call, not only when a new best is recorded. -/
theorem C6_counterexample :
    lookupTbl (ES5.getStorage (ES5.submit none true "w" (.number (.fin 9))
        (.number (.fin 10)) 0 ⟨some [], none, none⟩).1) "w" =
      some { bestScore := .fin 9, maxScore := .fin 10, bestPercent := .fin 90,
             lastScore := .fin 9, lastPercent := .fin 90, submittedAt := some 0 } ∧
    lookupTbl (ES5.getStorage (ES5.submit none true "w" (.number (.fin 4))
        (.number (.fin 5)) 1
        (ES5.submit none true "w" (.number (.fin 9)) (.number (.fin 10)) 0
          ⟨some [], none, none⟩).1).1) "w" =
      some { bestScore := .fin 9, maxScore := .fin 5, bestPercent := .fin 90,
             lastScore := .fin 4, lastPercent := .fin 80, submittedAt := some 1 } := by
  have hw : ¬("w" : String) = "" := by decide
  constructor
  · norm_num [hw, abs_lt, ES5.submit, ES5.saveRecord, ES5.getRecord,
      ES5.getStorage, ES5.setStorage, ES5.applyUpdates, ES5.defaultRecord,
      lookupTbl, setTbl, jsMaxQ, jsPos, jsPct, orZero, ES1.mergeAccept,
      jsGtQ, jsAbsLt]
  · norm_num [hw, abs_lt, ES5.submit, ES5.saveRecord, ES5.getRecord,
      ES5.getStorage, ES5.setStorage, ES5.applyUpdates, ES5.defaultRecord,
      lookupTbl, setTbl, jsMaxQ, jsPos, jsPct, orZero, ES1.mergeAccept,
      jsGtQ, jsAbsLt]

/-- Amended C6: on every valid `submit`, the stored `maxScore` becomes the
clamped max of that observation — when a new best is recorded and also when
not; in the observer path (`setScoreImpl`), `maxScore` is overwritten with
the clamped max exactly when the merge records a new best, and kept
otherwise. -/
theorem C6_max_score_update_rule :
    (∀ (ls : ES5.LS) (wsid : String) (a b : ℚ) (now : Nat), wsid ≠ "" →
      ∃ r', lookupTbl (ES5.getStorage
          (ES5.submit none true wsid (.number (.fin a)) (.number (.fin b)) now ls).1)
          wsid = some r' ∧ r'.maxScore = .fin (max 1 b)) ∧
    (∀ (tbl : ES1.Table) (wsid : String) (a b : ℚ) (now : Nat) (r : ES1.Record),
      wsid ≠ "" → lookupTbl tbl wsid = some r →
      ∃ r', lookupTbl
          (ES1.setScoreImpl wsid (.number (.fin a)) (.number (.fin b)) now tbl)
          wsid = some r' ∧
        r'.maxScore = (if ES1.mergeAccept (.fin (max 0 a / max 1 b * 100))
            (orZero r.bestPercent) (orZero r.bestScore) (.fin (max 0 a))
          then .fin (max 1 b) else r.maxScore)) := by
  constructor
  · intro ls wsid a b now hw
    unfold ES5.submit
    simp only [hw, not_true_eq_false, false_or, if_neg, ite_false, not_false_eq_true]
    simp only [jsMaxQ, jsPos, jsPct]
    refine ⟨_, lookupTbl_saveRecord _ _ _ hw, ?_⟩
    simp only [ES5.applyUpdates]
    split <;> split <;> rfl
  · intro tbl wsid a b now r hw hr
    unfold ES1.setScoreImpl
    simp only [JsNum.fin.injEq, reduceCtorEq, or_self, ite_false, if_neg,
      not_false_eq_true, jsMaxQ, jsPos, jsPct, ES1.getRecord, hw, hr,
      Option.map_some', Option.getD_some]
    refine ⟨_, lookupTbl_saveRecord1 _ _ _ hw, ?_⟩
    rw [hr]
    simp only [Option.getD_some]
    split <;> split <;> split <;> simp_all [ES1.applyUpdates]

/-- Witness for C6: a 4/5 submit over the 8/10 best of `exLS` still rewrites
`maxScore` to 5; the same observation through `setScoreImpl` over the 4/5
best of `exTbl1` leaves `maxScore` at 5 because no new best is recorded. -/
theorem C6_witness :
    (∃ r', lookupTbl (ES5.getStorage (ES5.submit none true "w"
        (.number (.fin 4)) (.number (.fin 5)) 1 exLS).1) "w" = some r' ∧
      r'.maxScore = .fin 5) ∧
    (∃ r', lookupTbl (ES1.setScoreImpl "w" (.number (.fin 4))
        (.number (.fin 5)) 1 exTbl1) "w" = some r' ∧
      r'.maxScore = .fin 5) := by
  constructor
  · obtain ⟨r', h1, h2⟩ := C6_max_score_update_rule.1 exLS "w" 4 5 1 (by decide)
    refine ⟨r', h1, ?_⟩
    rw [h2]; norm_num
  · obtain ⟨r', h1, h2⟩ := C6_max_score_update_rule.2 exTbl1 "w" 4 5 1 exRecord1
      (by decide) rfl
    refine ⟨r', h1, ?_⟩
    rw [h2]
    have : ES1.mergeAccept (.fin (max 0 (4 : ℚ) / max 1 5 * 100))
        (orZero exRecord1.bestPercent) (orZero exRecord1.bestScore)
        (.fin (max 0 (4 : ℚ))) = false := by
      rw [← Bool.not_eq_true, mergeAccept_fin]
      norm_num [exRecord1, orZero]
    rw [this]
    norm_num [exRecord1]

/-- Claim C7: with an active worksheet id, `newAttempt` bumps `attempts`
(0 → 1 on a fresh record), stamps `lastAttemptAt`, clears `completedAt`, and
leaves `bestScore`, `maxScore`, `bestPercent` and every other stored field
unchanged. -/
theorem C7_new_attempt_frame (wsid : String) (now : Nat) (tbl : ES1.Table)
    (hw : wsid ≠ "") :
    (∀ r, lookupTbl tbl wsid = some r →
      lookupTbl (ES1.newAttempt wsid now tbl) wsid =
        some { r with
                attempts := .fin (orZero r.attempts + 1)
                lastAttemptAt := some now
                completedAt := none }) ∧
    (lookupTbl tbl wsid = none →
      lookupTbl (ES1.newAttempt wsid now tbl) wsid =
        some { ES1.defaultRecord with
                attempts := .fin 1
                lastAttemptAt := some now
                completedAt := none }) := by
  constructor
  · intro r hr
    unfold ES1.newAttempt
    simp only [hw, ite_false, if_neg, not_false_eq_true, ES1.getRecord, hr,
      Option.map_some', Option.getD_some]
    rw [lookupTbl_saveRecord1 _ _ _ hw, hr]
    simp [ES1.applyUpdates]
  · intro hr
    unfold ES1.newAttempt
    simp only [hw, ite_false, if_neg, not_false_eq_true, ES1.getRecord, hr,
      Option.map_none', Option.getD_none]
    rw [lookupTbl_saveRecord1 _ _ _ hw, hr]
    simp [ES1.applyUpdates, ES1.defaultRecord]

/-- Witness for C7: `newAttempt` over `exTbl1` (attempts 1, best 4/5) gives
attempts 2 with the best fields intact, and over an empty table creates the
default record with attempts 1. -/
theorem C7_witness :
    lookupTbl (ES1.newAttempt "w" 9 exTbl1) "w" =
      some { exRecord1 with
              attempts := .fin (orZero exRecord1.attempts + 1)
              lastAttemptAt := some 9
              completedAt := none } ∧
    lookupTbl (ES1.newAttempt "w" 9 ([] : ES1.Table)) "w" =
      some { ES1.defaultRecord with
              attempts := .fin 1
              lastAttemptAt := some 9
              completedAt := none } :=
  ⟨(C7_new_attempt_frame "w" 9 exTbl1 (by decide)).1 exRecord1 rfl,
   (C7_new_attempt_frame "w" 9 [] (by decide)).2 rfl⟩

/-- Claim C9: a registered tracking adapter — including one that throws —
never changes the state persisted by `submit`: the saved record equals the
one saved with no adapter, and the adapter error is caught into a diagnostic
rather than propagated (the `try/catch` in the embedding of lines 482-486). -/
theorem C9_adapter_failure_isolated (f : ES5.Adapter) (mounted : Bool)
    (wsid : String) (score maxScore : JsVal) (now : Nat) (ls : ES5.LS) :
    (ES5.submit (some f) mounted wsid score maxScore now ls).1 =
      (ES5.submit none mounted wsid score maxScore now ls).1 :=
  submit_state_adapter_indep (some f) mounted wsid score maxScore now ls

/-- Claim C10: `attachScoreObserver` parses the element's current text once
at attach time; when that text parses as a score pair the pair is fed
through `setScoreImpl` immediately (no mutation needed), and the observer is
registered for future changes. -/
theorem C10_attach_parses_immediately (wsid : String) (now : Nat) (el : Elem)
    (tbl : ES1.Table) (s m : Nat) (hp : parseScoreText el.text = some (s, m)) :
    (ES1.attachScoreObserver wsid now (some el) tbl).table =
        ES1.setScoreImpl wsid (.number (.fin s)) (.number (.fin m)) now tbl ∧
    (ES1.attachScoreObserver wsid now (some el) tbl).observerRegistered = true := by
  simp [ES1.attachScoreObserver, ES1.observerParse, hp]

/-- Witness for C10: attaching to an element already reading
"Score: 7 / 10" records 7/10 through `setScoreImpl` at attach time. -/
theorem C10_witness :
    (ES1.attachScoreObserver "w" 1 (some exElem) []).table =
        ES1.setScoreImpl "w" (.number (.fin 7)) (.number (.fin 10)) 1 [] ∧
    (ES1.attachScoreObserver "w" 1 (some exElem) []).observerRegistered = true :=
  C10_attach_parses_immediately "w" 1 exElem [] 7 10 (by rfl)

theorem ws_not_digit (c : Char) (h : c.isWhitespace = true) :
    isDigitChar c = false := by
  simp only [Char.isWhitespace, Bool.or_eq_true, decide_eq_true_eq] at h
  rcases h with ((rfl | rfl) | rfl) | rfl <;> decide

theorem digit_not_ws (c : Char) (h : isDigitChar c = true) :
    c.isWhitespace = false := by
  cases hws : c.isWhitespace with
  | false => rfl
  | true => rw [ws_not_digit c hws] at h; exact absurd h (by simp)

theorem takeDigits_parts (l : List Char) :
    l = (takeDigits l).1 ++ (takeDigits l).2 ∧
      ∀ c ∈ (takeDigits l).1, isDigitChar c = true := by
  induction l with
  | nil => simp [takeDigits]
  | cons c cs ih =>
      by_cases h : isDigitChar c = true
      · simp only [takeDigits, h, ite_true, if_pos]
        constructor
        · simpa using ih.1
        · intro x hx
          simp only [List.mem_cons] at hx
          rcases hx with rfl | hx
          · exact h
          · exact ih.2 x hx
      · simp [takeDigits, h]

theorem takeWs_parts (l : List Char) :
    l = (takeWs l).1 ++ (takeWs l).2 ∧
      ∀ c ∈ (takeWs l).1, c.isWhitespace = true := by
  induction l with
  | nil => simp [takeWs]
  | cons c cs ih =>
      by_cases h : c.isWhitespace = true
      · simp only [takeWs, h, ite_true, if_pos]
        constructor
        · simpa using ih.1
        · intro x hx
          simp only [List.mem_cons] at hx
          rcases hx with rfl | hx
          · exact h
          · exact ih.2 x hx
      · simp [takeWs, h]

theorem takeDigits_append (d rest : List Char)
    (hd : ∀ c ∈ d, isDigitChar c = true)
    (hr : ∀ c ∈ rest.head?, isDigitChar c = false) :
    takeDigits (d ++ rest) = (d, rest) := by
  induction d with
  | nil =>
      cases rest with
      | nil => rfl
      | cons c t =>
          simp only [List.head?] at hr
          simp [takeDigits, hr c rfl]
  | cons c d' ih =>
      have hc : isDigitChar c = true := hd c (List.mem_cons_self c d')
      simp only [List.cons_append, takeDigits, hc, ite_true, if_pos,
        List.append_eq]
      rw [ih (fun x hx => hd x (List.mem_cons_of_mem c hx))]

theorem takeWs_append (w rest : List Char)
    (hw : ∀ c ∈ w, c.isWhitespace = true)
    (hr : ∀ c ∈ rest.head?, c.isWhitespace = false) :
    takeWs (w ++ rest) = (w, rest) := by
  induction w with
  | nil =>
      cases rest with
      | nil => rfl
      | cons c t =>
          simp only [List.head?] at hr
          simp [takeWs, hr c rfl]
  | cons c w' ih =>
      have hc : c.isWhitespace = true := hw c (List.mem_cons_self c w')
      simp only [List.cons_append, takeWs, hc, ite_true, if_pos,
        List.append_eq]
      rw [ih (fun x hx => hw x (List.mem_cons_of_mem c hx))]

theorem takeDigits_cons_digit (c : Char) (t : List Char)
    (h : isDigitChar c = true) : (takeDigits (c :: t)).1 ≠ [] := by
  simp [takeDigits, h]

theorem matchAt_complete (d1 w1 w2 d2 rest : List Char)
    (h1 : d1 ≠ []) (h2 : d2 ≠ [])
    (hd1 : ∀ c ∈ d1, isDigitChar c = true)
    (hd2 : ∀ c ∈ d2, isDigitChar c = true)
    (hw1 : ∀ c ∈ w1, c.isWhitespace = true)
    (hw2 : ∀ c ∈ w2, c.isWhitespace = true) :
    (matchAt (d1 ++ w1 ++ '/' :: (w2 ++ (d2 ++ rest)))).isSome = true := by
  have hhead1 : ∀ c ∈ (w1 ++ '/' :: (w2 ++ (d2 ++ rest))).head?,
      isDigitChar c = false := by
    intro c hc
    cases w1 with
    | nil =>
        simp only [List.nil_append, List.head?, Option.mem_def,
          Option.some.injEq] at hc
        subst hc; decide
    | cons a t =>
        simp only [List.cons_append, List.head?, Option.mem_def,
          Option.some.injEq] at hc
        subst hc
        exact ws_not_digit a (hw1 a (List.mem_cons_self a t))
  have hstep1 : takeDigits (d1 ++ w1 ++ '/' :: (w2 ++ (d2 ++ rest))) =
      (d1, w1 ++ '/' :: (w2 ++ (d2 ++ rest))) := by
    rw [List.append_assoc]
    exact takeDigits_append d1 _ hd1 hhead1
  have hstep2 : takeWs (w1 ++ '/' :: (w2 ++ (d2 ++ rest))) =
      (w1, '/' :: (w2 ++ (d2 ++ rest))) := by
    refine takeWs_append w1 _ hw1 ?_
    intro c hc
    simp only [List.head?, Option.mem_def, Option.some.injEq] at hc
    subst hc; decide
  have hstep3 : takeWs (w2 ++ (d2 ++ rest)) = (w2, d2 ++ rest) := by
    refine takeWs_append w2 _ hw2 ?_
    intro c hc
    cases d2 with
    | nil => exact absurd rfl h2
    | cons a t =>
        simp only [List.cons_append, List.head?, Option.mem_def,
          Option.some.injEq] at hc
        subst hc
        exact digit_not_ws a (hd2 a (List.mem_cons_self a t))
  unfold matchAt
  rw [hstep1]
  simp only [List.isEmpty_eq_true, h1, ite_false, if_neg, not_false_eq_true]
  rw [hstep2]
  simp only
  rw [hstep3]
  simp only
  cases d2 with
  | nil => exact absurd rfl h2
  | cons a t =>
      have hne := takeDigits_cons_digit a (t ++ rest)
        (hd2 a (List.mem_cons_self a t))
      simp only [List.cons_append]
      simp only [List.isEmpty_eq_true, hne, ite_false, if_neg,
        not_false_eq_true, Option.isSome_some]

theorem scanFraction_cons (c : Char) (t : List Char) :
    (scanFraction (c :: t)).isSome = true ↔
      ((matchAt (c :: t)).isSome = true ∨ (scanFraction t).isSome = true) := by
  have he : scanFraction (c :: t) =
      (match matchAt (c :: t) with
        | some p => some p
        | none => scanFraction t) := rfl
  rw [he]
  cases matchAt (c :: t) <;> simp

theorem scanFraction_complete (l : List Char) (h : FractionSubstring l) :
    (scanFraction l).isSome = true := by
  obtain ⟨pre, d1, w1, w2, d2, post, heq, h1, h2, hd1, hd2, hw1, hw2⟩ := h
  subst heq
  induction pre with
  | nil =>
      obtain ⟨c, d1', rfl⟩ : ∃ c d1', d1 = c :: d1' := by
        cases d1 with
        | nil => exact absurd rfl h1
        | cons c d1' => exact ⟨c, d1', rfl⟩
      have hm := matchAt_complete (c :: d1') w1 w2 d2 post h1 h2 hd1 hd2 hw1 hw2
      simp only [List.nil_append, List.append_assoc, List.singleton_append,
        List.cons_append] at hm ⊢
      rw [scanFraction_cons]
      exact Or.inl hm
  | cons c pre' ih =>
      simp only [List.cons_append, List.append_assoc] at ih ⊢
      rw [scanFraction_cons]
      exact Or.inr ih

theorem matchAt_sound (l : List Char) (v m : Nat) (h : matchAt l = some (v, m)) :
    ∃ d1 w1 w2 d2 rest, l = d1 ++ w1 ++ '/' :: (w2 ++ (d2 ++ rest)) ∧
      d1 ≠ [] ∧ d2 ≠ [] ∧ (∀ c ∈ d1, isDigitChar c = true) ∧
      (∀ c ∈ d2, isDigitChar c = true) ∧ (∀ c ∈ w1, c.isWhitespace = true) ∧
      (∀ c ∈ w2, c.isWhitespace = true) ∧ v = digitsVal d1 ∧ m = digitsVal d2 := by
  unfold matchAt at h
  dsimp only at h
  split at h
  case isTrue => exact absurd h (by simp)
  case isFalse hne1 =>
    split at h
    case h_2 => exact absurd h (by simp)
    case h_1 x r3 hsp =>
      split at h
      case isTrue => exact absurd h (by simp)
      case isFalse hne2 =>
        injection h with h'
        obtain ⟨hv, hm⟩ := Prod.mk.inj h'
        have hd1ne : (takeDigits l).1 ≠ [] := by
          intro hnil
          rw [hnil] at hne1
          exact hne1 rfl
        have hd2ne : (takeDigits (takeWs r3).2).1 ≠ [] := by
          intro hnil
          rw [hnil] at hne2
          exact hne2 rfl
        refine ⟨(takeDigits l).1, (takeWs (takeDigits l).2).1, (takeWs r3).1,
          (takeDigits (takeWs r3).2).1, (takeDigits (takeWs r3).2).2,
          ?_, hd1ne, hd2ne, (takeDigits_parts l).2,
          (takeDigits_parts (takeWs r3).2).2,
          (takeWs_parts (takeDigits l).2).2, (takeWs_parts r3).2,
          hv.symm, hm.symm⟩
        have e1 : l = (takeDigits l).1 ++ (takeDigits l).2 := (takeDigits_parts l).1
        have e2 : (takeDigits l).2 =
            (takeWs (takeDigits l).2).1 ++ (takeWs (takeDigits l).2).2 :=
          (takeWs_parts (takeDigits l).2).1
        have e3 : r3 = (takeWs r3).1 ++ (takeWs r3).2 := (takeWs_parts r3).1
        have e4 : (takeWs r3).2 =
            (takeDigits (takeWs r3).2).1 ++ (takeDigits (takeWs r3).2).2 :=
          (takeDigits_parts (takeWs r3).2).1
        have e5 : r3 = (takeWs r3).1 ++
            ((takeDigits (takeWs r3).2).1 ++ (takeDigits (takeWs r3).2).2) := by
          conv_lhs => rw [e3, e4]
        conv_lhs => rw [e1, e2, hsp, e5]
        simp [List.append_assoc]

theorem scanFraction_sound (l : List Char) (v m : Nat)
    (h : scanFraction l = some (v, m)) :
    ∃ pre d1 w1 w2 d2 rest,
      l = pre ++ (d1 ++ w1 ++ '/' :: (w2 ++ (d2 ++ rest))) ∧
      d1 ≠ [] ∧ d2 ≠ [] ∧ (∀ c ∈ d1, isDigitChar c = true) ∧
      (∀ c ∈ d2, isDigitChar c = true) ∧ (∀ c ∈ w1, c.isWhitespace = true) ∧
      (∀ c ∈ w2, c.isWhitespace = true) ∧ v = digitsVal d1 ∧ m = digitsVal d2 := by
  induction l with
  | nil => exact absurd h (by simp [scanFraction])
  | cons c t ih =>
      have he : scanFraction (c :: t) =
          (match matchAt (c :: t) with
            | some p => some p
            | none => scanFraction t) := rfl
      rw [he] at h
      cases hma : matchAt (c :: t) with
      | some p =>
          rw [hma] at h
          simp only [Option.some.injEq] at h
          subst h
          obtain ⟨d1, w1, w2, d2, rest, heq, h1, h2, hd1, hd2, hw1, hw2, hv, hm⟩ :=
            matchAt_sound (c :: t) v m hma
          exact ⟨[], d1, w1, w2, d2, rest, by simpa using heq, h1, h2, hd1, hd2,
            hw1, hw2, hv, hm⟩
      | none =>
          rw [hma] at h
          obtain ⟨pre, d1, w1, w2, d2, rest, heq, h1, h2, hd1, hd2, hw1, hw2, hv, hm⟩ :=
            ih h
          exact ⟨c :: pre, d1, w1, w2, d2, rest, by simp [heq], h1, h2, hd1, hd2,
            hw1, hw2, hv, hm⟩

theorem FractionSubstring_iff_scan (l : List Char) :
    FractionSubstring l ↔ (scanFraction l).isSome = true := by
  constructor
  · exact scanFraction_complete l
  · intro h
    obtain ⟨p, hp⟩ := Option.isSome_iff_exists.mp h
    obtain ⟨pre, d1, w1, w2, d2, rest, heq, h1, h2, hd1, hd2, hw1, hw2, _, _⟩ :=
      scanFraction_sound l p.1 p.2 (by rw [hp])
    exact ⟨pre, d1, w1, w2, d2, rest, by simpa [List.append_assoc] using heq,
      h1, h2, hd1, hd2, hw1, hw2⟩

theorem quickWins_parses (doc : List Elem) (sels : List Nat) (el : Elem)
    (h : quickWins doc sels = some el) : (parseScoreText el.text).isSome = true := by
  induction sels with
  | nil => exact absurd h (by simp [quickWins])
  | cons i rest ih =>
      unfold quickWins at h
      cases hq : querySel doc i with
      | none => rw [hq] at h; exact ih h
      | some e =>
          rw [hq] at h
          dsimp only at h
          by_cases hv : e.visible = true
          · rw [if_pos hv] at h
            by_cases hp : (parseScoreText e.text).isSome = true
            · rw [if_pos hp] at h
              obtain rfl : e = el := by injection h
              exact hp
            · rw [if_neg hp] at h
              exact ih h
          · rw [if_neg hv] at h
            exact ih h

theorem pickBest_mem (l : List Elem) (c : Elem) (h : pickBest l = some c) :
    c ∈ l := by
  induction l generalizing c with
  | nil => exact absurd h (by simp [pickBest])
  | cons a t ih =>
      unfold pickBest at h
      cases hp : pickBest t with
      | none =>
          rw [hp] at h
          obtain rfl : a = c := by injection h
          exact List.mem_cons_self a t
      | some b =>
          rw [hp] at h
          dsimp only at h
          split at h
          · obtain rfl : b = c := by injection h
            exact List.mem_cons_of_mem a (ih b hp)
          · obtain rfl : a = c := by injection h
            exact List.mem_cons_self a t

/-- Claim C8: score-text parsing yields a pair exactly when the first
`integer / integer` regex match exists and its denominator lies in
`(0, 500]`; such a match exists exactly when the text contains a
digit-run / slash / digit-run substring; and discovery never selects an
element whose (quick-win raw, or heuristic trimmed) text fails to parse. -/
theorem C8_parse_and_discovery :
    (∀ (txt : String) (v m : Nat),
      parseScoreText txt = some (v, m) ↔
        (scanFraction txt.toList = some (v, m) ∧ 0 < m ∧ m ≤ 500)) ∧
    (∀ txt : String, (scanFraction txt.toList).isSome = true ↔
        FractionSubstring txt.toList) ∧
    (∀ (doc : List Elem) (el : Elem), findScoreElement doc = some el →
      ((parseScoreText el.text).isSome = true ∨
        (parseScoreText (jsTrim el.text)).isSome = true)) := by
  refine ⟨?_, ?_, ?_⟩
  · intro txt v m
    constructor
    · intro h
      unfold parseScoreText at h
      by_cases he : txt = ""
      · rw [if_pos he] at h; exact absurd h (by simp)
      · rw [if_neg he] at h
        cases hs : scanFraction txt.toList with
        | none => rw [hs] at h; exact absurd h (by simp)
        | some p =>
            rw [hs] at h
            obtain ⟨v', m'⟩ := p
            dsimp only at h
            split at h
            next => exact absurd h (by simp)
            next hm0 =>
              split at h
              next => exact absurd h (by simp)
              next hm5 =>
                injection h with h'
                obtain ⟨rfl, rfl⟩ := Prod.mk.inj h'
                exact ⟨rfl, by omega, by omega⟩
    · rintro ⟨hscan, hm0, hm5⟩
      unfold parseScoreText
      by_cases he : txt = ""
      · subst he
        simp [scanFraction] at hscan
      · rw [if_neg he, hscan]
        dsimp only
        rw [if_neg (by omega), if_neg (by omega)]
  · intro txt
    exact (FractionSubstring_iff_scan txt.toList).symm
  · intro doc el h
    unfold findScoreElement at h
    cases hq : quickWins doc [0, 1, 2, 3, 4, 5, 6] with
    | some e =>
        rw [hq] at h
        obtain rfl : e = el := by injection h
        exact Or.inl (quickWins_parses doc _ _ hq)
    | none =>
        rw [hq] at h
        have hmem := pickBest_mem _ el h
        have hok : candOk el = true := (List.mem_filter.mp hmem).2
        unfold candOk at hok
        simp only [Bool.and_eq_true] at hok
        exact Or.inr hok.2.2

/-- Witness for C8: the iff instantiated on "Score: 7 / 10" (7/10 parses),
and discovery over a one-element document selects that element, whose text
parses. -/
theorem C8_witness :
    (parseScoreText "Score: 7 / 10" = some (7, 10) ↔
      (scanFraction ("Score: 7 / 10").toList = some (7, 10) ∧
        0 < 10 ∧ 10 ≤ 500)) ∧
    ((parseScoreText exElem.text).isSome = true ∨
      (parseScoreText (jsTrim exElem.text)).isSome = true) :=
  ⟨C8_parse_and_discovery.1 "Score: 7 / 10" 7 10,
   C8_parse_and_discovery.2.2 [exElem] exElem (by rfl)⟩
